import Mathlib

/-!
Verification development for the newsday crawler (`newsday_crawler.py`).

The crawler's pure logic is shallowly embedded below, translated from the
Python source:

* URL filtering and index-link extraction (`is_article_url`,
  `extract_articles_from_page`);
* the retrying page fetcher `crawl_page` with its exponential backoff loop;
* single-article fetching `crawl_article_content` and field extraction
  `extract_article_data`;
* per-date processing `process_date_batch` and the overall run
  `crawl_historical_data`;
* the date-frontier generator `generate_date_urls` over a proleptic
  Gregorian calendar (mirroring Python `datetime` + `relativedelta`).

Network responses, raised transport/timeout errors and the HTML-selector
results for article pages are external inputs; they are supplied through a
`Behavior` record, so every theorem quantifies over arbitrary fetcher and
extractor behaviour.  Python dictionaries holding article data are embedded
as records of `Option String` fields (a missing key is `none`), and
`dict.update` is the field-wise merge preferring the newer value when
present.
-/

/-- Boolean check that `p` is a leading segment of `s` (on character lists). -/
def leadsWith : List Char → List Char → Bool
  | [], _ => true
  | _ :: _, [] => false
  | a :: p, b :: s => a == b && leadsWith p s

/-- Boolean substring containment: some suffix of `s` starts with `p`.
Embeds `re.search` of a literal pattern. -/
def hasSub (p : List Char) (s : List Char) : Bool :=
  match s with
  | [] => leadsWith p []
  | _ :: t => leadsWith p s || hasSub p t

/-- The Unicode decimal-digit ranges (general category Nd, Unicode 15.1):
the characters matched by Python's `\d` in a `str` pattern. -/
def ndRanges : List (Nat × Nat) :=
  [(0x30, 0x39), (0x660, 0x669), (0x6F0, 0x6F9), (0x7C0, 0x7C9),
   (0x966, 0x96F), (0x9E6, 0x9EF), (0xA66, 0xA6F), (0xAE6, 0xAEF),
   (0xB66, 0xB6F), (0xBE6, 0xBEF), (0xC66, 0xC6F), (0xCE6, 0xCEF),
   (0xD66, 0xD6F), (0xDE6, 0xDEF), (0xE50, 0xE59), (0xED0, 0xED9),
   (0xF20, 0xF29), (0x1040, 0x1049), (0x1090, 0x1099), (0x17E0, 0x17E9),
   (0x1810, 0x1819), (0x1946, 0x194F), (0x19D0, 0x19D9), (0x1A80, 0x1A89),
   (0x1A90, 0x1A99), (0x1B50, 0x1B59), (0x1BB0, 0x1BB9), (0x1C40, 0x1C49),
   (0x1C50, 0x1C59), (0xA620, 0xA629), (0xA8D0, 0xA8D9), (0xA900, 0xA909),
   (0xA9D0, 0xA9D9), (0xA9F0, 0xA9F9), (0xAA50, 0xAA59), (0xABF0, 0xABF9),
   (0xFF10, 0xFF19), (0x104A0, 0x104A9), (0x10D30, 0x10D39),
   (0x11066, 0x1106F), (0x110F0, 0x110F9), (0x11136, 0x1113F),
   (0x111D0, 0x111D9), (0x112F0, 0x112F9), (0x11450, 0x11459),
   (0x114D0, 0x114D9), (0x11650, 0x11659), (0x116C0, 0x116C9),
   (0x11730, 0x11739), (0x118E0, 0x118E9), (0x11950, 0x11959),
   (0x11C50, 0x11C59), (0x11D50, 0x11D59), (0x11DA0, 0x11DA9),
   (0x11F50, 0x11F59), (0x16A60, 0x16A69), (0x16AC0, 0x16AC9),
   (0x16B50, 0x16B59), (0x1D7CE, 0x1D7FF), (0x1E140, 0x1E149),
   (0x1E2F0, 0x1E2F9), (0x1E4F0, 0x1E4F9), (0x1E950, 0x1E959),
   (0x1FBF0, 0x1FBF9)]

/-- Python's `\d` on a `str` pattern: any Unicode decimal digit. -/
def isUnicodeDigit (c : Char) : Bool :=
  ndRanges.any (fun p => p.1 ≤ c.toNat && c.toNat ≤ p.2)

/-- Does the regex `/\d{4}/\d{2}/\d{2}/.+` match at the head of `s`?
(`\d` matches any Unicode decimal digit; `.` matches any character except
a newline; `.+` needs at least one.) -/
def datePatternAt (s : List Char) : Bool :=
  match s with
  | '/' :: y1 :: y2 :: y3 :: y4 :: '/' :: m1 :: m2 :: '/' :: d1 :: d2 :: '/' :: c :: _ =>
      isUnicodeDigit y1 && isUnicodeDigit y2 && isUnicodeDigit y3 && isUnicodeDigit y4 &&
      isUnicodeDigit m1 && isUnicodeDigit m2 && isUnicodeDigit d1 && isUnicodeDigit d2 &&
      c != '\n'
  |_ => false

/-- Does `re.search(r"/\d{4}/\d{2}/\d{2}/.+", s)` find a match anywhere? -/
def hasDatePath (s : List Char) : Bool :=
  match s with
  | [] => false
  | _ :: t => datePatternAt s || hasDatePath t

/-- `self.base_url` from `NewsdayCrawler.__init__`. -/
def baseUrl : String := "https://newsday.co.tt"

/-- Embedding of `NewsdayCrawler.is_article_url`: the URL is an article URL
when the date-path regex or one of the five literal section patterns matches
(`re.search`, i.e. substring search). -/
def is_article_url (url : String) : Bool :=
  hasDatePath url.data ||
  hasSub "/news/".data url.data ||
  hasSub "/sports/".data url.data ||
  hasSub "/features/".data url.data ||
  hasSub "/editorial/".data url.data ||
  hasSub "/entertainment/".data url.data

/-- A character allowed in a URL scheme after the first, as
`urllib.parse.urlsplit` accepts them: ASCII letters, digits, `+`, `-`, `.`.
(`Char.isAlpha`/`Char.isDigit` are the ASCII tests, matching urllib's
ASCII-only scheme rule.) -/
def isSchemeChar (c : Char) : Bool :=
  c.isAlpha || c.isDigit || c == '+' || c == '-' || c == '.'

/-- Scans for the `:` ending a scheme; fails on a character no scheme may
contain.  Returns the scheme characters (reversed accumulator) and the
remainder after the colon. -/
def splitSchemeGo (acc : List Char) : List Char → Option (List Char × List Char)
  | [] => none
  | c :: rest =>
      if c == ':' then some (acc.reverse, rest)
      else if isSchemeChar c then splitSchemeGo (c :: acc) rest
      else none

/-- Splits a leading `scheme:` off a URL the way `urllib.parse.urlsplit`
does: an ASCII letter, then letters, digits, `+`, `-` or `.`, terminated by
a colon.  The scheme is lowercased for comparison. -/
def splitSchemeOf (url : List Char) : Option (List Char × List Char) :=
  match url with
  | [] => none
  | c :: _ =>
      if c.isAlpha then
        (splitSchemeGo [] url).map (fun p => (p.1.map Char.toLower, p.2))
      else none

/-- Python `str.split('/')` on character lists. -/
def splitSlashGo (cur : List Char) : List Char → List (List Char)
  | [] => [cur.reverse]
  | c :: rest =>
      if c == '/' then cur.reverse :: splitSlashGo [] rest
      else splitSlashGo (c :: cur) rest

/-- Python `'/'.join(…)` on character lists. -/
def joinSlash : List (List Char) → List Char
  | [] => []
  | [s] => s
  | s :: rest => s ++ '/' :: joinSlash rest

/-- Drops empty segments except in last position (tail of urljoin's
`segments[1:-1] = filter(None, segments[1:-1])`). -/
def dropEmptyMiddleAux : List (List Char) → List (List Char)
  | [] => []
  | [x] => [x]
  | x :: rest => if x = [] then dropEmptyMiddleAux rest else x :: dropEmptyMiddleAux rest

/-- The `segments[1:-1] = filter(None, segments[1:-1])` step of
`urllib.parse.urljoin`: empty segments are dropped except in first and last
position. -/
def dropEmptyMiddle : List (List Char) → List (List Char)
  | [] => []
  | [x] => [x]
  | x :: rest => x :: dropEmptyMiddleAux rest

/-- Dot-segment resolution of `urllib.parse.urljoin`: `..` pops the last
resolved segment (ignored on an empty stack), `.` is skipped, anything else
is appended.  `acc` is the reversed resolved prefix. -/
def resolveGo (acc : List (List Char)) : List (List Char) → List (List Char)
  | [] => acc.reverse
  | s :: rest =>
      if s = "..".data then
        match acc with
        | [] => resolveGo [] rest
        | _ :: t => resolveGo t rest
      else if s = ".".data then resolveGo acc rest
      else resolveGo (s :: acc) rest

/-- Joining a scheme-less href onto the crawler's base URL
`https://newsday.co.tt` (scheme `https`, authority `newsday.co.tt`, empty
path), as `urllib.parse.urljoin` does: a `//…` href keeps its own authority
and receives the base's scheme; an empty path yields the base; otherwise
the path segments — prefixed by the base's (empty) directory when the href
is relative — go through dot-segment resolution and are reattached to the
base origin (an all-consumed path becomes `/`). -/
def joinNoScheme (base : String) (p : List Char) : List Char :=
  if leadsWith "//".data p then "https:".data ++ p
  else if p = [] then base.data
  else
    let segments :=
      if leadsWith "/".data p then splitSlashGo [] p
      else dropEmptyMiddle ([] :: splitSlashGo [] p)
    let resolved := resolveGo [] segments
    let resolved2 :=
      if segments.getLast? = some ".".data ∨ segments.getLast? = some "..".data
      then resolved ++ [[]] else resolved
    let joined := joinSlash resolved2
    base.data ++ (if joined = [] then "/".data else joined)

/-- Modelled from `urllib.parse.urljoin` for the crawler's base URL
`https://newsday.co.tt` and hrefs without query or fragment components, as
CPython implements it: an empty href yields the base; an href carrying its
own scheme other than the base's `https` (e.g. `tel:`, `mailto:`, `http:`)
is returned unchanged; a same-scheme `https:` href is joined after
dropping the scheme; a scheme-less href is joined onto the base with
dot-segment normalization (`/news/../x` becomes
`https://newsday.co.tt/x`). -/
def urljoin (base href : String) : String :=
  if href.data = [] then base
  else
    match splitSchemeOf href.data with
    | some (s, rest) =>
        if s = "https".data then String.mk (joinNoScheme base rest) else href
    | none => String.mk (joinNoScheme base href.data)

/-- An `<a href=…>` element as delivered by `soup.find_all('a', href=True)`:
its `href` attribute and its whitespace-stripped anchor text
(`link.get_text(strip=True)`). -/
structure Link where
  href : String
  text : String
deriving DecidableEq

/-- A Python dict holding article data; each key of the crawler's dicts is a
field, `none` meaning the key is absent. -/
structure ArticleDict where
  title : Option String := none
  url : Option String := none
  previewText : Option String := none
  crawlDate : Option String := none
  sourceUrl : Option String := none
  content : Option String := none
  author : Option String := none
  date : Option String := none
  category : Option String := none
deriving DecidableEq

/-- Field-wise merge used to embed Python `dict.update`: a key present in
the newer dict overwrites, an absent key leaves the old value. -/
def mergeField (old new : Option String) : Option String :=
  match new with
  | some v => some v
  | none => old

/-- Embedding of `article.update(full_content)`. -/
def ArticleDict.update (a b : ArticleDict) : ArticleDict where
  title := mergeField a.title b.title
  url := mergeField a.url b.url
  previewText := mergeField a.previewText b.previewText
  crawlDate := mergeField a.crawlDate b.crawlDate
  sourceUrl := mergeField a.sourceUrl b.sourceUrl
  content := mergeField a.content b.content
  author := mergeField a.author b.author
  date := mergeField a.date b.date
  category := mergeField a.category b.category

/-- One iteration of the link loop in
`NewsdayCrawler.extract_articles_from_page`: skip an empty href
(`if not href: continue`), resolve it against the base URL, keep it only if
`is_article_url` accepts the resolved URL and the anchor text passes
`if title and len(title) > 10`. -/
def refOfLink (link : Link) : Option ArticleDict :=
  if link.href = "" then none
  else
    let fullUrl := urljoin baseUrl link.href
    if is_article_url fullUrl then
      let title := link.text
      if title ≠ "" ∧ title.length > 10 then
        some { title := some title, url := some fullUrl, previewText := some title }
      else none
    else none

/-- Embedding of `NewsdayCrawler.extract_articles_from_page`: the loop over
all links appends the surviving candidates in order. -/
def extract_articles_from_page (links : List Link) : List ArticleDict :=
  links.filterMap refOfLink

/-- Kind of error raised during a fetch attempt (`playwright` timeout or a
transport error); both land in the `except Exception` handler. -/
inductive ErrorKind where
  | timeout
  | transport
deriving DecidableEq

/-- Outcome of one fetch attempt on an index page: either the navigation
returns (with an optional HTTP status, since `page.goto` may return `None`,
and the parsed page, a list of links), or an exception is raised somewhere
in the attempt body. -/
inductive AttemptOutcome where
  | resp (status : Option Nat) (soup : List Link)
  | raiseErr (e : ErrorKind)
deriving DecidableEq

/-- Result of `NewsdayCrawler.crawl_page` plus its observable effects:
the returned value (`some articles` for `{'articles': …}`, `none` for the
Python `None`), the total time slept by the backoff (`time.sleep(2 **
attempt)` calls), and how many attempts were performed. -/
structure CrawlOutcome where
  result : Option (List ArticleDict)
  sleepTotal : Nat
  used : Nat
deriving DecidableEq

/-- The body of the `for attempt in range(max_retries)` loop of
`NewsdayCrawler.crawl_page`, with `remaining = maxRetries - attempt`
iterations left.  A non-success HTTP status logs and `continue`s (no
sleep); a missing response or a 200 response extracts the articles and
returns; a raised error sleeps `2 ** attempt` and retries while
`attempt < max_retries - 1`, else returns `None`.  Falling off the loop
also returns `None`. -/
def crawlPageGo (att : Nat → AttemptOutcome) (maxRetries attempt remaining : Nat) :
    CrawlOutcome :=
  match remaining with
  | 0 => { result := none, sleepTotal := 0, used := 0 }
  | r + 1 =>
    match att attempt with
    | .resp (some status) soup =>
        if status ≠ 200 then
          let rest := crawlPageGo att maxRetries (attempt + 1) r
          { result := rest.result, sleepTotal := rest.sleepTotal, used := rest.used + 1 }
        else
          { result := some (extract_articles_from_page soup), sleepTotal := 0, used := 1 }
    | .resp none soup =>
        { result := some (extract_articles_from_page soup), sleepTotal := 0, used := 1 }
    | .raiseErr _ =>
        if attempt < maxRetries - 1 then
          let rest := crawlPageGo att maxRetries (attempt + 1) r
          { result := rest.result, sleepTotal := 2 ^ attempt + rest.sleepTotal,
            used := rest.used + 1 }
        else
          { result := none, sleepTotal := 0, used := 1 }

/-- `NewsdayCrawler.crawl_page` for a given per-attempt behaviour `att`
(the attempt-indexed network outcome for the requested URL). -/
def crawlPageAtt (att : Nat → AttemptOutcome) (maxRetries : Nat) : CrawlOutcome :=
  crawlPageGo att maxRetries 0 maxRetries

/-- The optional fields that the selector heuristics of
`NewsdayCrawler.extract_article_data` find on an article page (title,
content, author, date, category); extraction heuristics are an external
collaborator, so their results are inputs. -/
structure ArticleFields where
  title : Option String := none
  content : Option String := none
  author : Option String := none
  date : Option String := none
  category : Option String := none
deriving DecidableEq

/-- Outcome of the single fetch performed by
`NewsdayCrawler.crawl_article_content` for an article URL. -/
inductive ArticlePageOutcome where
  | resp (status : Option Nat) (fields : ArticleFields)
  | raiseErr (e : ErrorKind)

/-- Embedding of `NewsdayCrawler.extract_article_data`: the result dict
always carries `{'url': url}` and otherwise exactly the fields the
selectors found. -/
def extract_article_data (url : String) (f : ArticleFields) : ArticleDict where
  url := some url
  title := f.title
  content := f.content
  author := f.author
  date := f.date
  category := f.category

/-- External behaviour of network and article-page extraction: per index
URL and per attempt the outcome of a `crawl_page` attempt, and per article
URL the outcome of the single `crawl_article_content` fetch. -/
structure Behavior where
  indexAttempt : String → Nat → AttemptOutcome
  articlePage : String → ArticlePageOutcome

/-- `NewsdayCrawler.crawl_page` under behaviour `b`. -/
def crawl_page (b : Behavior) (url : String) (maxRetries : Nat) : CrawlOutcome :=
  crawlPageAtt (b.indexAttempt url) maxRetries

/-- Embedding of `NewsdayCrawler.crawl_article_content`: a raised error is
caught and yields `None`; a non-200 status yields `None`; otherwise the
extracted article data is returned. -/
def crawl_article_content (b : Behavior) (url : String) : Option ArticleDict :=
  match b.articlePage url with
  | .raiseErr _ => none
  | .resp (some status) f => if status ≠ 200 then none else some (extract_article_data url f)
  | .resp none f => some (extract_article_data url f)

/-- A date work item from `generate_date_urls`: its index-page URL and the
`YYYY-MM-DD` date string. -/
structure DateInfo where
  url : String
  date : String
deriving DecidableEq

/-- The two assignments at the top of the article loop in
`NewsdayCrawler.process_date_batch`:
`article['crawl_date'] = …; article['source_url'] = …`. -/
def withCrawl (d : DateInfo) (a : ArticleDict) : ArticleDict :=
  { a with crawlDate := some d.date, sourceUrl := some d.url }

/-- Observable events during a run: index/article fetches, producing one
finished record, one lock-protected extension of the shared list, and the
generation of the date frontier. -/
inductive Ev where
  | fetchIndex (url : String)
  | fetchArticle (url : String)
  | produce (a : ArticleDict)
  | push (batch : List ArticleDict)
  | frontierGen (n : Nat)
deriving DecidableEq

/-- The body of the article loop in `NewsdayCrawler.process_date_batch` for
one discovered article: stamp crawl date and source URL, then — only when a
non-empty `url` key is present (`if article.get('url'):`) — fetch the
article page and merge the extracted fields over the reference
(`article.update(full_content)`); a failed fetch keeps the reference as is.
Returns the produced record together with its trace of events. -/
def enrichArticle (b : Behavior) (d : DateInfo) (a : ArticleDict) :
    ArticleDict × List Ev :=
  let a1 := withCrawl d a
  match a1.url with
  | some u =>
      if u = "" then (a1, [Ev.produce a1])
      else
        match crawl_article_content b u with
        | some full => ((a1.update full), [Ev.fetchArticle u, Ev.produce (a1.update full)])
        | none => (a1, [Ev.fetchArticle u, Ev.produce a1])
  | none => (a1, [Ev.produce a1])

/-- Result of `NewsdayCrawler.process_date_batch`: the records appended to
`batch_articles`, the lock-protected writes to `self.articles_data` (one
list per acquisition of `self.articles_lock`), the returned
`len(batch_articles)`, and the event trace. -/
structure BatchResult where
  batch : List ArticleDict
  pushes : List (List ArticleDict)
  count : Nat
  events : List Ev
deriving DecidableEq

/-- Embedding of `NewsdayCrawler.process_date_batch`: fetch the index page
with `crawl_page` (default `max_retries=3`); when the result is `None` or
its article list is empty (`if result and result.get('articles'):`) nothing
is produced and 0 is returned; otherwise every discovered article is
enriched in order and the whole batch is appended to the shared list in a
single lock-protected `extend`. -/
def process_date_batch (b : Behavior) (d : DateInfo) : BatchResult :=
  match (crawl_page b d.url 3).result with
  | none => { batch := [], pushes := [], count := 0, events := [Ev.fetchIndex d.url] }
  | some arts =>
    if arts.isEmpty then
      { batch := [], pushes := [], count := 0, events := [Ev.fetchIndex d.url] }
    else
      let batch := arts.map (fun a => (enrichArticle b d a).1)
      { batch := batch
        pushes := [batch]
        count := batch.length
        events := Ev.fetchIndex d.url ::
          (arts.flatMap (fun a => (enrichArticle b d a).2) ++ [Ev.push batch]) }

/-- The shared `self.articles_data` after the worker pool of
`NewsdayCrawler.crawl_historical_data` has drained all date targets,
serialised in submission order: each completed `process_date_batch` extends
the shared list with its batch. -/
def runTargets (b : Behavior) (targets : List DateInfo) : List ArticleDict :=
  targets.foldl (fun st t => st ++ (process_date_batch b t).batch) []

/-- The `ResultAggregator` reference behaviour: the shared list after a
sequence of lock-protected `extend` calls, applied in the order the lock
was acquired. -/
def resultAggregatorRun (writes : List (List ArticleDict)) : List ArticleDict :=
  writes.foldl (fun st w => st ++ w) []

/-- A calendar date as carried by a Python `datetime` (the clock time is
irrelevant here: `relativedelta(years=…)` and `timedelta(days=1)` both
preserve it, so all datetimes in the generator share one clock time). -/
structure Date where
  year : Nat
  month : Nat
  day : Nat
deriving DecidableEq

/-- Gregorian leap-year test, as used by Python's calendar. -/
def isLeap (y : Nat) : Bool :=
  (y % 4 == 0 && y % 100 != 0) || (y % 400 == 0)

/-- Length of month `m` of year `y` (0 for an invalid month number). -/
def daysInMonth (y m : Nat) : Nat :=
  match m with
  | 1 => 31
  | 2 => if isLeap y then 29 else 28
  | 3 => 31
  | 4 => 30
  | 5 => 31
  | 6 => 30
  | 7 => 31
  | 8 => 31
  | 9 => 30
  | 10 => 31
  | 11 => 30
  | 12 => 31
  | _ => 0

/-- Days of year `y` that precede month `m`. -/
def daysBeforeMonth (y m : Nat) : Nat :=
  let l : Nat := if isLeap y then 1 else 0
  match m with
  | 1 => 0
  | 2 => 31
  | 3 => 59 + l
  | 4 => 90 + l
  | 5 => 120 + l
  | 6 => 151 + l
  | 7 => 181 + l
  | 8 => 212 + l
  | 9 => 243 + l
  | 10 => 273 + l
  | 11 => 304 + l
  | 12 => 334 + l
  | _ => 0

/-- Number of leap years in `1 … y-1`. -/
def leapsBefore (y : Nat) : Nat :=
  (y - 1) / 4 + (y - 1) / 400 - (y - 1) / 100

/-- Days that precede year `y` (year 1 starts at day 0). -/
def daysBeforeYear (y : Nat) : Nat :=
  365 * (y - 1) + leapsBefore y

/-- The proleptic-Gregorian day number of a date (`datetime.toordinal` in
Python: January 1 of year 1 is day 1).  Python datetimes are ordered and
stepped through this ordinal. -/
def toOrdinal (d : Date) : Nat :=
  daysBeforeYear d.year + daysBeforeMonth d.year d.month + d.day

/-- The date is a real calendar date representable by `datetime`
(`datetime.MINYEAR = 1`). -/
def Date.valid (d : Date) : Prop :=
  1 ≤ d.year ∧ 1 ≤ d.month ∧ d.month ≤ 12 ∧ 1 ≤ d.day ∧ d.day ≤ daysInMonth d.year d.month

instance (d : Date) : Decidable d.valid := by
  unfold Date.valid
  infer_instance

/-- Calendar successor: the effect of `current_date += timedelta(days=1)` on
the calendar fields of a valid datetime. -/
def nextDay (d : Date) : Date :=
  if d.day < daysInMonth d.year d.month then { d with day := d.day + 1 }
  else if d.month < 12 then { year := d.year, month := d.month + 1, day := 1 }
  else { year := d.year + 1, month := 1, day := 1 }

/-- Embedding of `dateutil` `relativedelta(years=n)` subtraction
(`end_date - relativedelta(years=years_back)`): same month, year lowered by
`n`, day clamped to the target month's length (Feb 29 becomes Feb 28 in a
non-leap year). -/
def subYears (n : Nat) (d : Date) : Date :=
  { year := d.year - n, month := d.month,
    day := min d.day (daysInMonth (d.year - n) d.month) }

/-- The `while current_date <= end_date` loop of
`NewsdayCrawler.generate_date_urls`, fuelled: each iteration appends the
current date and steps one day.  The datetime comparison agrees with
comparison of day ordinals. -/
def genLoop (fuel : Nat) (cur endD : Date) : List Date :=
  match fuel with
  | 0 => []
  | f + 1 =>
    if toOrdinal cur ≤ toOrdinal endD then cur :: genLoop f (nextDay cur) endD
    else []

/-- The sequence of dates produced by `NewsdayCrawler.generate_date_urls`
with reference time `now` (`datetime.now()` made explicit): from
`now - relativedelta(years=yearsBack)` up to `now`.  The fuel
`toOrdinal now + 1` exceeds the number of loop iterations. -/
def generateDates (yearsBack : Nat) (now : Date) : List Date :=
  genLoop (toOrdinal now + 1) (subYears yearsBack now) now

/-- Zero-padded two-digit rendering of `%m` / `%d`. -/
def pad2 (n : Nat) : String :=
  if n < 10 then "0" ++ toString n else toString n

/-- Zero-padded four-digit rendering of `%Y`. -/
def pad4 (n : Nat) : String :=
  if n < 10 then "000" ++ toString n
  else if n < 100 then "00" ++ toString n
  else if n < 1000 then "0" ++ toString n
  else toString n

/-- Embedding of `NewsdayCrawler.generate_date_urls`: one record per date,
with the `BASE/%Y/%m/%d/` index URL and the `%Y-%m-%d` date string. -/
def generate_date_urls (yearsBack : Nat) (now : Date) : List DateInfo :=
  (generateDates yearsBack now).map (fun d =>
    { url := baseUrl ++ "/" ++ pad4 d.year ++ "/" ++ pad2 d.month ++ "/" ++ pad2 d.day ++ "/",
      date := pad4 d.year ++ "-" ++ pad2 d.month ++ "-" ++ pad2 d.day })

/-- Embedding of `NewsdayCrawler.crawl_historical_data` with an explicit
reference time and worker count: generate the date URLs first, then create
the worker pool — `ThreadPoolExecutor` raises
`ValueError("max_workers must be greater than 0")` when `max_workers <= 0`
— and otherwise drain all targets.  The second component is the event
trace (frontier generation, then each target's events). -/
def crawl_historical_data (b : Behavior) (yearsBack maxWorkers : Nat) (now : Date) :
    Except String (List ArticleDict) × List Ev :=
  let dateUrls := generate_date_urls yearsBack now
  if maxWorkers = 0 then
    (Except.error "max_workers must be greater than 0", [Ev.frontierGen dateUrls.length])
  else
    (Except.ok (runTargets b dateUrls),
     Ev.frontierGen dateUrls.length :: dateUrls.flatMap (fun t => (process_date_batch b t).events))

/-- A fetcher whose every attempt comes back with HTTP 404. -/
def att404 : Nat → AttemptOutcome := fun _ => .resp (some 404) []

/-- A fetcher whose every attempt raises a timeout. -/
def attAllTimeout : Nat → AttemptOutcome := fun _ => .raiseErr .timeout

/-- A fetcher whose every attempt raises a transport error. -/
def attAllTransport : Nat → AttemptOutcome := fun _ => .raiseErr .transport

/-- A news link with a headline longer than ten characters. -/
def linkNews1 : Link := { href := "/news/first-sample-story", text := "First sample headline" }

/-- A second news link with a headline longer than ten characters. -/
def linkNews2 : Link := { href := "/news/second-sample-story", text := "Second sample headline" }

/-- The reference extracted from `linkNews1`. -/
def refNews1 : ArticleDict :=
  { title := some "First sample headline",
    url := some "https://newsday.co.tt/news/first-sample-story",
    previewText := some "First sample headline" }

/-- The date target for 2024-01-01. -/
def dJan1 : DateInfo := { url := "https://newsday.co.tt/2024/01/01/", date := "2024-01-01" }

/-- The date target for 2024-01-02. -/
def dJan2 : DateInfo := { url := "https://newsday.co.tt/2024/01/02/", date := "2024-01-02" }

/-- Behaviour where the index fetch for `dJan1` always times out while any
other index page returns one article link; article fetches time out. -/
def bIndexFail : Behavior where
  indexAttempt := fun url _ =>
    if url = dJan1.url then .raiseErr .timeout else .resp (some 200) [linkNews1]
  articlePage := fun _ => .raiseErr .timeout

/-- Behaviour where every index page lists one article and every article
fetch times out. -/
def bOneArticle : Behavior where
  indexAttempt := fun _ _ => .resp (some 200) [linkNews1]
  articlePage := fun _ => .raiseErr .timeout

/-- Behaviour where every index page lists the same article twice (the same
href appearing under two long-enough anchor texts) and every article fetch
times out. -/
def bDupLinks : Behavior where
  indexAttempt := fun _ _ =>
    .resp (some 200)
      [{ href := "/news/first-sample-story", text := "First sample headline" },
       { href := "/news/first-sample-story", text := "Same story linked again" }]
  articlePage := fun _ => .raiseErr .timeout

/-- Behaviour where every index page lists two distinct articles and every
article fetch times out. -/
def bTwoLinks : Behavior where
  indexAttempt := fun _ _ => .resp (some 200) [linkNews1, linkNews2]
  articlePage := fun _ => .raiseErr .timeout

/-- A record used in aggregator examples. -/
def recA : ArticleDict := { title := some "Record A", url := some "https://newsday.co.tt/news/a" }

/-- A second record used in aggregator examples. -/
def recB : ArticleDict := { title := some "Record B", url := some "https://newsday.co.tt/news/b" }

/-- Whether attempt `i` of fetcher `att` is a failed attempt: a present
non-200 HTTP status or a raised error.  (A missing response is treated as
success by the code: `if response and response.status != 200`.) -/
def attFails (att : Nat → AttemptOutcome) (i : Nat) : Bool :=
  match att i with
  | .resp (some s) _ => decide (s ≠ 200)
  | .resp none _ => false
  | .raiseErr _ => true

/-- The URLs of the article references discovered on a date target's index
page (empty when the index fetch fails). -/
def discoveredUrls (b : Behavior) (t : DateInfo) : List (Option String) :=
  match (crawl_page b t.url 3).result with
  | some arts => arts.map ArticleDict.url
  | none => []

/-- Unfolding equation of `crawlPageGo`: out of iterations. -/
theorem crawlPageGo_zero (att : Nat → AttemptOutcome) (mr attempt : Nat) :
    crawlPageGo att mr attempt 0 = { result := none, sleepTotal := 0, used := 0 } := rfl

/-- Unfolding equation of `crawlPageGo`: a non-200 status retries at once. -/
theorem crawlPageGo_status (att : Nat → AttemptOutcome) (mr attempt r s : Nat) (soup : List Link)
    (hA : att attempt = .resp (some s) soup) (hs : s ≠ 200) :
    crawlPageGo att mr attempt (r + 1) =
      { result := (crawlPageGo att mr (attempt + 1) r).result,
        sleepTotal := (crawlPageGo att mr (attempt + 1) r).sleepTotal,
        used := (crawlPageGo att mr (attempt + 1) r).used + 1 } := by
  simp [crawlPageGo, hA, hs]

/-- Unfolding equation of `crawlPageGo`: a 200 status succeeds. -/
theorem crawlPageGo_ok (att : Nat → AttemptOutcome) (mr attempt r s : Nat) (soup : List Link)
    (hA : att attempt = .resp (some s) soup) (hs : s = 200) :
    crawlPageGo att mr attempt (r + 1) =
      { result := some (extract_articles_from_page soup), sleepTotal := 0, used := 1 } := by
  subst hs
  simp [crawlPageGo, hA]

/-- Unfolding equation of `crawlPageGo`: a missing response succeeds. -/
theorem crawlPageGo_noresp (att : Nat → AttemptOutcome) (mr attempt r : Nat) (soup : List Link)
    (hA : att attempt = .resp none soup) :
    crawlPageGo att mr attempt (r + 1) =
      { result := some (extract_articles_from_page soup), sleepTotal := 0, used := 1 } := by
  simp [crawlPageGo, hA]

/-- Unfolding equation of `crawlPageGo`: a raised error before the last
attempt sleeps `2 ^ attempt` and retries. -/
theorem crawlPageGo_raise_retry (att : Nat → AttemptOutcome) (mr attempt r : Nat) (e : ErrorKind)
    (hA : att attempt = .raiseErr e) (hlt : attempt < mr - 1) :
    crawlPageGo att mr attempt (r + 1) =
      { result := (crawlPageGo att mr (attempt + 1) r).result,
        sleepTotal := 2 ^ attempt + (crawlPageGo att mr (attempt + 1) r).sleepTotal,
        used := (crawlPageGo att mr (attempt + 1) r).used + 1 } := by
  simp [crawlPageGo, hA, hlt]

/-- Unfolding equation of `crawlPageGo`: a raised error on the last attempt
returns `None` without sleeping. -/
theorem crawlPageGo_raise_last (att : Nat → AttemptOutcome) (mr attempt r : Nat) (e : ErrorKind)
    (hA : att attempt = .raiseErr e) (hlt : ¬ attempt < mr - 1) :
    crawlPageGo att mr attempt (r + 1) =
      { result := none, sleepTotal := 0, used := 1 } := by
  simp [crawlPageGo, hA, hlt]

/-- Loop invariant of `crawl_page`: started at `attempt` with `remaining`
iterations left, the loop performs at most `remaining` attempts and returns
`None` exactly when every remaining attempt fails. -/
theorem crawlPageGo_spec (att : Nat → AttemptOutcome) (maxRetries : Nat) :
    ∀ remaining attempt, attempt + remaining = maxRetries →
      (crawlPageGo att maxRetries attempt remaining).used ≤ remaining ∧
      ((crawlPageGo att maxRetries attempt remaining).result = none ↔
        ∀ i, attempt ≤ i → i < maxRetries → attFails att i = true) := by
  intro remaining
  induction remaining with
  | zero =>
    intro attempt h
    rw [crawlPageGo_zero]
    refine ⟨Nat.le_refl 0, ?_⟩
    constructor
    · intro _ i h1 h2
      omega
    · intro _
      rfl
  | succ r ih =>
    intro attempt h
    cases hA : att attempt with
    | resp status soup =>
      cases status with
      | none =>
        rw [crawlPageGo_noresp att maxRetries attempt r soup hA]
        refine ⟨by show (1 : Nat) ≤ r + 1; omega, ?_⟩
        constructor
        · intro hc
          exact absurd hc (by simp)
        · intro hall
          have hf := hall attempt (le_refl _) (by omega)
          simp [attFails, hA] at hf
      | some s =>
        by_cases hs : s ≠ 200
        · rw [crawlPageGo_status att maxRetries attempt r s soup hA hs]
          obtain ⟨ihu, ihr⟩ := ih (attempt + 1) (by omega)
          refine ⟨by simpa using Nat.succ_le_succ ihu, ?_⟩
          simp only []
          rw [ihr]
          constructor
          · intro hall i h1 h2
            rcases Nat.eq_or_lt_of_le h1 with rfl | hlt
            · simp [attFails, hA, hs]
            · exact hall i (by omega) h2
          · intro hall i h1 h2
            exact hall i (by omega) h2
        · have hs2 : s = 200 := by omega
          rw [crawlPageGo_ok att maxRetries attempt r s soup hA hs2]
          refine ⟨by show (1 : Nat) ≤ r + 1; omega, ?_⟩
          constructor
          · intro hc
            exact absurd hc (by simp)
          · intro hall
            have hf := hall attempt (le_refl _) (by omega)
            simp [attFails, hA, hs2] at hf
    | raiseErr e =>
      by_cases hlt : attempt < maxRetries - 1
      · rw [crawlPageGo_raise_retry att maxRetries attempt r e hA hlt]
        obtain ⟨ihu, ihr⟩ := ih (attempt + 1) (by omega)
        refine ⟨by simpa using Nat.succ_le_succ ihu, ?_⟩
        simp only []
        rw [ihr]
        constructor
        · intro hall i h1 h2
          rcases Nat.eq_or_lt_of_le h1 with rfl | hlt2
          · simp [attFails, hA]
          · exact hall i (by omega) h2
        · intro hall i h1 h2
          exact hall i (by omega) h2
      · rw [crawlPageGo_raise_last att maxRetries attempt r e hA hlt]
        refine ⟨by show (1 : Nat) ≤ r + 1; omega, ?_⟩
        constructor
        · intro _ i h1 h2
          have hi : i = attempt := by omega
          subst hi
          simp [attFails, hA]
        · intro _
          rfl

/-- Backoff accounting: when every remaining attempt raises an error, the
loop sleeps `2^attempt + … + 2^(maxRetries-2)`, returns `None`, and uses
all remaining attempts. -/
theorem crawlPageGo_sleep_raise (att : Nat → AttemptOutcome) (maxRetries : Nat) :
    ∀ remaining attempt, attempt + remaining = maxRetries → 1 ≤ remaining →
      (∀ i, attempt ≤ i → i < maxRetries → ∃ e, att i = .raiseErr e) →
      (crawlPageGo att maxRetries attempt remaining).sleepTotal
          = 2 ^ (maxRetries - 1) - 2 ^ attempt ∧
      (crawlPageGo att maxRetries attempt remaining).result = none ∧
      (crawlPageGo att maxRetries attempt remaining).used = remaining := by
  intro remaining
  induction remaining with
  | zero =>
    intro attempt h h1 h2
    exact absurd h1 (by omega)
  | succ r ih =>
    intro attempt h h1 h2
    obtain ⟨e, hA⟩ := h2 attempt (le_refl _) (by omega)
    by_cases hlt : attempt < maxRetries - 1
    · have hr : 1 ≤ r := by omega
      obtain ⟨ihs, ihr, ihu⟩ :=
        ih (attempt + 1) (by omega) hr (fun i h3 h4 => h2 i (by omega) h4)
      rw [crawlPageGo_raise_retry att maxRetries attempt r e hA hlt]
      have hp1 : 2 ^ (attempt + 1) = 2 * 2 ^ attempt := by
        rw [pow_succ]
        omega
      have hp2 : 2 ^ (attempt + 1) ≤ 2 ^ (maxRetries - 1) :=
        Nat.pow_le_pow_right (by norm_num) (by omega)
      refine ⟨?_, ihr, ?_⟩
      · show 2 ^ attempt + (crawlPageGo att maxRetries (attempt + 1) r).sleepTotal
            = 2 ^ (maxRetries - 1) - 2 ^ attempt
        rw [ihs]
        omega
      · show (crawlPageGo att maxRetries (attempt + 1) r).used + 1 = r + 1
        omega
    · have ha : attempt = maxRetries - 1 := by omega
      rw [crawlPageGo_raise_last att maxRetries attempt r e hA hlt]
      refine ⟨?_, rfl, ?_⟩
      · show (0 : Nat) = 2 ^ (maxRetries - 1) - 2 ^ attempt
        rw [ha]
        omega
      · show (1 : Nat) = r + 1
        omega

/-- C3 (counterexample): with the fetcher whose every attempt comes back
with HTTP 404 — each attempt therefore a failed attempt — `crawl_page` with
`maxRetries = 3` returns the failure after all attempts having slept 0 time
units, not `2^0 + 2^1` as the claim requires for a fetcher that always
fails: no sleep at all separates consecutive status-failed attempts. -/
theorem crawl_page_status_failures_sleep_zero :
    (crawlPageAtt att404 3).result = none ∧
    (crawlPageAtt att404 3).used = 3 ∧
    (crawlPageAtt att404 3).sleepTotal = 0 ∧
    (0 : Nat) ≠ 2 ^ 0 + 2 ^ 1 := by
  refine ⟨rfl, rfl, rfl, by decide⟩

/-- C3 (amended): the backoff sleep of `2^attemptIndex` time units separates
consecutive attempts that failed by a raised error (timeout or transport
error) only; attempts failed by a non-success HTTP status retry with no
sleep.  With a fetcher whose every attempt raises, `crawl_page` sleeps
`2^0 + … + 2^(maxRetries-2) = 2^(maxRetries-1) - 1` time units in total,
returns the failure, and uses exactly `maxRetries` attempts. -/
theorem crawl_page_backoff (att : Nat → AttemptOutcome) (maxRetries : Nat)
    (h1 : 1 ≤ maxRetries)
    (h2 : ∀ i, i < maxRetries → ∃ e, att i = AttemptOutcome.raiseErr e) :
    (crawlPageAtt att maxRetries).sleepTotal = 2 ^ (maxRetries - 1) - 1 ∧
    (crawlPageAtt att maxRetries).result = none ∧
    (crawlPageAtt att maxRetries).used = maxRetries := by
  obtain ⟨hs, hr, hu⟩ :=
    crawlPageGo_sleep_raise att maxRetries maxRetries 0 (by omega) h1
      (fun i _ h4 => h2 i h4)
  exact ⟨by rw [crawlPageAtt, hs]; norm_num, hr, hu⟩

/-- Witness for C3's amended theorem at the always-timeout fetcher with
`maxRetries = 3`. -/
theorem crawl_page_backoff_witness :
    (crawlPageAtt attAllTimeout 3).sleepTotal = 2 ^ (3 - 1) - 1 ∧
    (crawlPageAtt attAllTimeout 3).result = none ∧
    (crawlPageAtt attAllTimeout 3).used = 3 :=
  crawl_page_backoff attAllTimeout 3 (by omega) (fun i _ => ⟨ErrorKind.timeout, rfl⟩)

/-- C4 (counterexample): `crawl_page` returns the bare Python `None` after
exhausting its retries, carrying no error kind: a fetcher whose attempts
all time out and one whose attempts all fail with transport errors produce
literally identical outcomes, so the returned failure cannot record the
last error kind. -/
theorem crawl_page_failure_has_no_error_kind :
    crawlPageAtt attAllTimeout 3 = crawlPageAtt attAllTransport 3 ∧
    (crawlPageAtt attAllTimeout 3).result = none := by
  refine ⟨rfl, rfl⟩

/-- C4 (amended): for every fetcher behaviour, `crawl_page` never raises to
its caller — it is a total function into an optional result — performs at
most `maxRetries` attempts, and returns the successful extraction
(`Success`) if and only if some attempt does not fail, the bare failure
`None` (recording no error kind) otherwise. -/
theorem crawl_page_total (att : Nat → AttemptOutcome) (maxRetries : Nat) :
    (crawlPageAtt att maxRetries).used ≤ maxRetries ∧
    ((crawlPageAtt att maxRetries).result = none ↔
      ∀ i, i < maxRetries → attFails att i = true) := by
  obtain ⟨hu, hr⟩ := crawlPageGo_spec att maxRetries maxRetries 0 (by omega)
  refine ⟨hu, ?_⟩
  rw [crawlPageAtt, hr]
  constructor
  · intro hall i h2
    exact hall i (by omega) h2
  · intro hall i _ h2
    exact hall i h2

/-- Witness for C4's amended theorem: with the always-timeout fetcher every
attempt fails, so the result is `None`. -/
theorem crawl_page_total_witness :
    (crawlPageAtt attAllTimeout 3).result = none :=
  (crawl_page_total attAllTimeout 3).2.mpr (fun _ _ => rfl)

/-- Folding list extensions over a non-empty accumulator factors through the
empty accumulator. -/
theorem foldlExtend (f : DateInfo → List ArticleDict) :
    ∀ (ts : List DateInfo) (init : List ArticleDict),
      ts.foldl (fun st t => st ++ f t) init
        = init ++ ts.foldl (fun st t => st ++ f t) [] := by
  intro ts
  induction ts with
  | nil =>
    intro init
    simp
  | cons t ts ih =>
    intro init
    simp only [List.foldl_cons]
    rw [ih (init ++ f t), List.nil_append, ih (f t), List.append_assoc]

/-- `runTargets` over a concatenation of frontiers is the concatenation of
the runs. -/
theorem runTargets_append (b : Behavior) (xs ys : List DateInfo) :
    runTargets b (xs ++ ys) = runTargets b xs ++ runTargets b ys := by
  unfold runTargets
  rw [List.foldl_append, foldlExtend]

/-- Peeling one target off the front of `runTargets`. -/
theorem runTargets_cons (b : Behavior) (t : DateInfo) (ts : List DateInfo) :
    runTargets b (t :: ts) = (process_date_batch b t).batch ++ runTargets b ts := by
  unfold runTargets
  simp only [List.foldl_cons, List.nil_append]
  rw [foldlExtend]

/-- C1: if the index-page fetch for a date target fails after its retries
(`crawl_page` returns `None`), `process_date_batch` produces zero records
for that date — an empty batch, return value 0, and no write to the shared
list — it does not raise (it is total into its result record), and the
overall run over any frontier containing that target equals the run over
the remaining targets: sibling targets still complete. -/
theorem index_failure_is_isolated (b : Behavior) (t : DateInfo)
    (pre post : List DateInfo) (h : (crawl_page b t.url 3).result = none) :
    (process_date_batch b t).count = 0 ∧
    (process_date_batch b t).batch = [] ∧
    (process_date_batch b t).pushes = [] ∧
    runTargets b (pre ++ t :: post) = runTargets b pre ++ runTargets b post := by
  have hb : process_date_batch b t =
      { batch := [], pushes := [], count := 0, events := [Ev.fetchIndex t.url] } := by
    unfold process_date_batch
    rw [h]
  refine ⟨by rw [hb], by rw [hb], by rw [hb], ?_⟩
  rw [runTargets_append, runTargets_cons, hb]
  simp

/-- Witness for C1: the behaviour whose index fetch for 2024-01-01 always
times out yields a run in which 2024-01-01 contributes nothing and
2024-01-02 still completes. -/
theorem index_failure_is_isolated_witness :
    runTargets bIndexFail ([] ++ dJan1 :: [dJan2])
      = runTargets bIndexFail [] ++ runTargets bIndexFail [dJan2] :=
  (index_failure_is_isolated bIndexFail dJan1 [] [dJan2] (by decide)).2.2.2

/-- The record produced for one discovered article: the crawl-stamped
reference, merged with the article page's extracted fields when that fetch
yields data, kept as is when it yields `None`. -/
theorem enrichArticle_fst (b : Behavior) (d : DateInfo) (a : ArticleDict) (u : String)
    (hu : a.url = some u) (hne : u ≠ "") :
    (enrichArticle b d a).1 =
      match crawl_article_content b u with
      | some full => (withCrawl d a).update full
      | none => withCrawl d a := by
  have h1 : (withCrawl d a).url = some u := by
    simp [withCrawl, hu]
  simp only [enrichArticle, h1]
  rw [if_neg hne]
  cases hc : crawl_article_content b u with
  | none => simp
  | some full => simp

/-- C2: every article reference discovered on a successfully fetched index
page yields exactly one record at its own position (nothing is dropped:
the batch has one record per reference).  When the article's own fetch
fails the record is the reference itself, stamped with the crawl date and
source index URL — keeping its known `title`/`url` fields; when the fetch
succeeds the extracted fields are merged over the stamped reference. -/
theorem article_failure_keeps_reference (b : Behavior) (d : DateInfo)
    (arts : List ArticleDict) (i : Nat) (a : ArticleDict) (u : String)
    (h : (crawl_page b d.url 3).result = some arts)
    (ha : arts[i]? = some a) (hu : a.url = some u) (hne : u ≠ "") :
    (process_date_batch b d).batch.length = arts.length ∧
    (crawl_article_content b u = none →
      (process_date_batch b d).batch[i]? = some (withCrawl d a)) ∧
    (∀ fc, crawl_article_content b u = some fc →
      (process_date_batch b d).batch[i]? = some ((withCrawl d a).update fc)) := by
  have hne2 : arts.isEmpty = false := by
    cases arts
    · simp at ha
    · rfl
  have hb : (process_date_batch b d).batch
      = arts.map (fun x => (enrichArticle b d x).1) := by
    unfold process_date_batch
    rw [h]
    simp [hne2]
  refine ⟨by rw [hb]; simp, ?_, ?_⟩
  · intro hc
    rw [hb, List.getElem?_map, ha]
    simp [enrichArticle_fst b d a u hu hne, hc]
  · intro fc hc
    rw [hb, List.getElem?_map, ha]
    simp [enrichArticle_fst b d a u hu hne, hc]

/-- Witness for C2: one discovered reference whose article fetch times out
still appears in the batch, stamped with crawl date and source URL. -/
theorem article_failure_keeps_reference_witness :
    (process_date_batch bOneArticle dJan1).batch[0]? = some (withCrawl dJan1 refNews1) :=
  (article_failure_keeps_reference bOneArticle dJan1 [refNews1] 0 refNews1
      "https://newsday.co.tt/news/first-sample-story"
      (by decide) (by decide) (by decide) (by decide)).2.1 (by decide)

/-- A successful `crawl_article_content` always reports the fetched URL
itself in the `url` key (set unconditionally by `extract_article_data`). -/
theorem crawl_article_content_url (b : Behavior) (u : String) (fc : ArticleDict)
    (h : crawl_article_content b u = some fc) : fc.url = some u := by
  unfold crawl_article_content at h
  split at h
  · exact absurd h (by simp)
  · split at h
    · exact absurd h (by simp)
    · injection h with h
      rw [← h]
      rfl
  · injection h with h
    rw [← h]
    rfl

/-- Enrichment never changes a record's URL: the crawl stamps touch other
keys, and a merged article page carries the same URL it was fetched from. -/
theorem enrichArticle_url (b : Behavior) (d : DateInfo) (a : ArticleDict) :
    ((enrichArticle b d a).1).url = a.url := by
  have h1 : (withCrawl d a).url = a.url := rfl
  unfold enrichArticle
  cases hu : (withCrawl d a).url with
  | none =>
    simp only [hu]
    rw [← h1, hu]
  | some u =>
    simp only [hu]
    by_cases he : u = ""
    · rw [if_pos he]
      rw [← h1, hu]
    · rw [if_neg he]
      cases hc : crawl_article_content b u with
      | none =>
        simp only []
        rw [← h1, hu]
      | some fc =>
        simp only [ArticleDict.update]
        have h2 := crawl_article_content_url b u fc hc
        rw [h2]
        simp [mergeField, ← h1, hu]

/-- The per-date batch carries exactly the discovered URLs. -/
theorem batch_urls (b : Behavior) (t : DateInfo) :
    (process_date_batch b t).batch.map ArticleDict.url = discoveredUrls b t := by
  unfold process_date_batch discoveredUrls
  cases hc : (crawl_page b t.url 3).result with
  | none => simp
  | some arts =>
    by_cases he : arts.isEmpty
    · have h0 : arts = [] := by
        cases arts
        · rfl
        · simp at he
      subst h0
      simp
    · simp only [he, if_neg, List.map_map]
      simp only [Bool.not_eq_true] at he
      simp [he, List.map_map]
      intro x _
      exact enrichArticle_url b t x

/-- C6 (amended): the final aggregated collection has exactly one record
per article reference discovered on a successfully fetched index page,
with the reference's URL, whether or not the article's own fetch succeeded
— positionally, the aggregated URLs are the concatenation of the
discovered URLs of all targets.  Records accumulate unconditionally, so
the same URL discovered twice yields two records (no deduplication). -/
theorem aggregate_matches_discovered (b : Behavior) (ts : List DateInfo) :
    (runTargets b ts).map ArticleDict.url = ts.flatMap (discoveredUrls b) := by
  induction ts with
  | nil => rfl
  | cons t ts ih =>
    rw [runTargets_cons, List.map_append, ih, List.flatMap_cons, batch_urls]

/-- C6 (counterexample): with an index page that links the same article
URL under two different long-enough anchor texts and article fetches that
all fail, the final collection holds two records sharing one URL — and no
article URL was ever successfully fetched.  This contradicts both halves
of the claimed invariant (one record per successfully fetched URL, no
duplicate URLs). -/
theorem aggregate_can_hold_duplicate_urls :
    (runTargets bDupLinks [dJan1]).length = 2 ∧
    (runTargets bDupLinks [dJan1]).map ArticleDict.url =
      [some "https://newsday.co.tt/news/first-sample-story",
       some "https://newsday.co.tt/news/first-sample-story"] ∧
    crawl_article_content bDupLinks "https://newsday.co.tt/news/first-sample-story" = none := by
  refine ⟨rfl, by decide, rfl⟩

/-- C7 (amended): all records of a date target are handed to the shared
list in one single lock-protected write at the end of the date's
processing — the write list is empty when nothing was produced and
otherwise consists of exactly one write containing the whole batch — not
one push per record. -/
theorem push_is_one_batch (b : Behavior) (d : DateInfo) :
    (process_date_batch b d).pushes =
      if (process_date_batch b d).batch.isEmpty then []
      else [(process_date_batch b d).batch] := by
  unfold process_date_batch
  cases hc : (crawl_page b d.url 3).result with
  | none => simp
  | some arts =>
    by_cases he : arts.isEmpty
    · simp [he]
    · simp only [Bool.not_eq_true] at he
      have hne : arts ≠ [] := by
        intro h0
        rw [h0] at he
        simp at he
      simp [he, hne]

/-- C7 (counterexample): a date page discovering two articles produces two
records but performs a single push containing both of them — two records,
one push, so records are not streamed to the aggregator one by one. -/
theorem records_pushed_in_batch :
    (process_date_batch bTwoLinks dJan1).batch.length = 2 ∧
    (process_date_batch bTwoLinks dJan1).pushes.length = 1 ∧
    (process_date_batch bTwoLinks dJan1).pushes = [(process_date_batch bTwoLinks dJan1).batch] ∧
    (1 : Nat) ≠ 2 := by
  refine ⟨rfl, rfl, rfl, by decide⟩

/-- C8 (amended): a run configured with `concurrency < 1` raises the worker
pool's `ValueError` before any fetch or any write to the shared list — its
event trace holds no fetch and no push event — but only after the date
frontier has been generated, since `generate_date_urls` runs before the
pool is created. -/
theorem invalid_concurrency_rejected_after_frontier (b : Behavior)
    (yearsBack maxWorkers : Nat) (now : Date) (h : maxWorkers < 1) :
    (crawl_historical_data b yearsBack maxWorkers now).1
        = Except.error "max_workers must be greater than 0" ∧
    (crawl_historical_data b yearsBack maxWorkers now).2
        = [Ev.frontierGen (generate_date_urls yearsBack now).length] := by
  have h0 : maxWorkers = 0 := by omega
  subst h0
  exact ⟨rfl, rfl⟩

/-- Witness for C8's amended theorem at a concrete zero-worker run. -/
theorem invalid_concurrency_rejected_after_frontier_witness :
    (crawl_historical_data bOneArticle 0 0 ⟨2024, 1, 1⟩).1
        = Except.error "max_workers must be greater than 0" ∧
    (crawl_historical_data bOneArticle 0 0 ⟨2024, 1, 1⟩).2
        = [Ev.frontierGen (generate_date_urls 0 ⟨2024, 1, 1⟩).length] :=
  invalid_concurrency_rejected_after_frontier bOneArticle 0 0 ⟨2024, 1, 1⟩ (by omega)

/-- C8 (counterexample): with zero workers the run is rejected, yet its
trace already contains the frontier-generation event for the one generated
date target — frontier generation is work that happens before the invalid
configuration is rejected, contradicting the claim that no frontier
generation precedes the rejection. -/
theorem frontier_generated_before_rejection :
    (crawl_historical_data bOneArticle 0 0 ⟨2024, 1, 1⟩).1
        = Except.error "max_workers must be greater than 0" ∧
    (crawl_historical_data bOneArticle 0 0 ⟨2024, 1, 1⟩).2 = [Ev.frontierGen 1] ∧
    (1 : Nat) ≠ 0 := by
  refine ⟨rfl, rfl, by decide⟩

/-- Length of a fold of list extensions. -/
theorem foldlExtend_length (ws : List (List ArticleDict)) :
    ∀ init : List ArticleDict,
      (ws.foldl (fun st w => st ++ w) init).length
        = init.length + (ws.map List.length).sum := by
  induction ws with
  | nil =>
    intro init
    simp
  | cons w ws ih =>
    intro init
    simp only [List.foldl_cons, List.map_cons, List.sum_cons]
    rw [ih (init ++ w)]
    simp [List.length_append]
    omega

/-- C9: the shared collection loses no record.  The lock makes every
`extend` atomic, so a concurrent execution of the workers' add calls is
some serialisation — a permutation — of the performed writes; for every
such serialisation the final size of the collection equals the total
number of records across all writes. -/
theorem aggregator_loses_no_record (writes order : List (List ArticleDict))
    (h : order.Perm writes) :
    (resultAggregatorRun order).length = (writes.map List.length).sum := by
  unfold resultAggregatorRun
  rw [foldlExtend_length]
  simp only [List.length_nil, Nat.zero_add]
  exact (h.map List.length).sum_eq

/-- Witness for C9: a three-write serialisation arriving in a different
order than submitted still accounts for every record. -/
theorem aggregator_loses_no_record_witness :
    (resultAggregatorRun [[recB], [], [recA]]).length
      = ([[], [recA], [recB]].map List.length).sum :=
  aggregator_loses_no_record [[], [recA], [recB]] [[recB], [], [recA]] (by decide)

/-- A list leads with itself followed by anything. -/
theorem leadsWith_append (p r : List Char) : leadsWith p (p ++ r) = true := by
  induction p with
  | nil => rfl
  | cons a p ih => simp [leadsWith, ih]

/-- A successful `leadsWith` exposes the leading segment. -/
theorem leadsWith_exists (p : List Char) :
    ∀ s, leadsWith p s = true → ∃ r, s = p ++ r := by
  induction p with
  | nil =>
    intro s _
    exact ⟨s, rfl⟩
  | cons a p ih =>
    intro s h
    cases s with
    | nil => simp [leadsWith] at h
    | cons b t =>
      simp only [leadsWith, Bool.and_eq_true, beq_iff_eq] at h
      obtain ⟨r, hr⟩ := ih t h.2
      exact ⟨r, by rw [h.1, hr]; simp⟩

/-- Every real month has at least one day. -/
theorem daysInMonth_pos (y m : Nat) (h1 : 1 ≤ m) (h2 : m ≤ 12) :
    1 ≤ daysInMonth y m := by
  interval_cases m <;> cases hl : isLeap y <;> simp [daysInMonth, hl]

/-- Cumulative month lengths step by the month's length. -/
theorem daysBeforeMonth_succ (y m : Nat) (h1 : 1 ≤ m) (h2 : m ≤ 11) :
    daysBeforeMonth y (m + 1) = daysBeforeMonth y m + daysInMonth y m := by
  interval_cases m <;> cases hl : isLeap y <;> simp [daysBeforeMonth, daysInMonth, hl]

/-- A valid day-of-year is at most the year's length. -/
theorem daysBeforeMonth_day_le (y m d : Nat) (h1 : 1 ≤ m) (h2 : m ≤ 12)
    (h3 : d ≤ daysInMonth y m) :
    daysBeforeMonth y m + d ≤ 365 + (if isLeap y then 1 else 0) := by
  interval_cases m <;> cases hl : isLeap y <;>
    simp [daysBeforeMonth, daysInMonth, hl] at h3 ⊢ <;> omega

/-- Cumulative month lengths across two years differ by at most one day. -/
theorem daysBeforeMonth_cross (y1 y2 m : Nat) (h1 : 1 ≤ m) (h2 : m ≤ 12) :
    daysBeforeMonth y1 m ≤ daysBeforeMonth y2 m + 1 := by
  interval_cases m <;> cases ha : isLeap y1 <;> cases hb : isLeap y2 <;>
    simp [daysBeforeMonth, ha, hb]

/-- Cumulative month lengths are monotone in the month. -/
theorem daysBeforeMonth_mono (y m1 : Nat) (h1 : 1 ≤ m1) :
    ∀ m2, m1 ≤ m2 → m2 ≤ 12 → daysBeforeMonth y m1 ≤ daysBeforeMonth y m2 := by
  intro m2
  induction m2 with
  | zero =>
    intro h _
    omega
  | succ k ihk =>
    intro h h2
    rcases Nat.lt_or_ge m1 (k + 1) with hlt | hge
    · have hk := ihk (by omega) (by omega)
      have hstep := daysBeforeMonth_succ y k (by omega) (by omega)
      omega
    · have heq : m1 = k + 1 := by omega
      rw [heq]

/-- Leap count steps by one exactly at leap years. -/
theorem leapsBefore_succ (y : Nat) (hy : 1 ≤ y) :
    leapsBefore (y + 1) = leapsBefore y + (if isLeap y then 1 else 0) := by
  by_cases h4 : y % 4 = 0 <;> by_cases h100 : y % 100 = 0 <;> by_cases h400 : y % 400 = 0 <;>
    simp [leapsBefore, isLeap, h4, h100, h400] <;> omega

/-- Days before a year step by the year's length. -/
theorem daysBeforeYear_succ (y : Nat) (hy : 1 ≤ y) :
    daysBeforeYear (y + 1) = daysBeforeYear y + 365 + (if isLeap y then 1 else 0) := by
  unfold daysBeforeYear
  rw [leapsBefore_succ y hy]
  split <;> omega

/-- Days before a year are monotone. -/
theorem daysBeforeYear_mono (y1 : Nat) (h1 : 1 ≤ y1) :
    ∀ y2, y1 ≤ y2 → daysBeforeYear y1 ≤ daysBeforeYear y2 := by
  intro y2
  induction y2 with
  | zero =>
    intro h
    omega
  | succ k ihk =>
    intro h
    rcases Nat.lt_or_ge y1 (k + 1) with hlt | hge
    · have hk := ihk (by omega)
      have hstep := daysBeforeYear_succ k (by omega)
      split at hstep <;> omega
    · have heq : y1 = k + 1 := by omega
      rw [heq]

/-- Strictly earlier years are at least a full year of days earlier. -/
theorem daysBeforeYear_gap (y1 : Nat) (h1 : 1 ≤ y1) :
    ∀ y2, y1 < y2 → daysBeforeYear y1 + 365 ≤ daysBeforeYear y2 := by
  intro y2
  induction y2 with
  | zero =>
    intro h
    omega
  | succ k ihk =>
    intro h
    rcases Nat.lt_or_ge y1 k with hlt | hge
    · have hk := ihk hlt
      have hstep := daysBeforeYear_succ k (by omega)
      split at hstep <;> omega
    · have heq : y1 = k := by omega
      subst heq
      have hstep := daysBeforeYear_succ y1 h1
      split at hstep <;> omega

/-- Stepping one day forward increments the day ordinal by one. -/
theorem toOrdinal_nextDay (d : Date) (h : d.valid) :
    toOrdinal (nextDay d) = toOrdinal d + 1 := by
  obtain ⟨hy, hm1, hm2, hd1, hd2⟩ := h
  unfold nextDay
  by_cases hlt : d.day < daysInMonth d.year d.month
  · rw [if_pos hlt]
    simp [toOrdinal]
    omega
  · rw [if_neg hlt]
    have hdd : d.day = daysInMonth d.year d.month := by omega
    by_cases hm : d.month < 12
    · rw [if_pos hm]
      simp only [toOrdinal]
      rw [daysBeforeMonth_succ d.year d.month hm1 (by omega)]
      omega
    · rw [if_neg hm]
      have hm12 : d.month = 12 := by omega
      simp only [toOrdinal]
      have hnew : daysBeforeMonth (d.year + 1) 1 = 0 := rfl
      have hstep := daysBeforeYear_succ d.year hy
      have hdbm : daysBeforeMonth d.year 12 + daysInMonth d.year 12
          = 365 + (if isLeap d.year then 1 else 0) := by
        cases hl : isLeap d.year <;> simp [daysBeforeMonth, daysInMonth, hl]
      rw [hm12] at hdd ⊢
      generalize hL : (if isLeap d.year then 1 else 0) = L at hstep hdbm
      omega

/-- Stepping one day forward preserves validity. -/
theorem nextDay_valid (d : Date) (h : d.valid) : (nextDay d).valid := by
  obtain ⟨hy, hm1, hm2, hd1, hd2⟩ := h
  unfold nextDay
  by_cases hlt : d.day < daysInMonth d.year d.month
  · rw [if_pos hlt]
    exact ⟨hy, hm1, hm2, by show 1 ≤ d.day + 1; omega,
      by show d.day + 1 ≤ daysInMonth d.year d.month; omega⟩
  · rw [if_neg hlt]
    by_cases hm : d.month < 12
    · rw [if_pos hm]
      exact ⟨hy, by show 1 ≤ d.month + 1; omega, by show d.month + 1 ≤ 12; omega,
        by show (1 : Nat) ≤ 1; omega,
        daysInMonth_pos d.year (d.month + 1) (by omega) (by omega)⟩
    · rw [if_neg hm]
      exact ⟨by show 1 ≤ d.year + 1; omega, by show (1 : Nat) ≤ 1; omega,
        by show (1 : Nat) ≤ 12; omega, by show (1 : Nat) ≤ 1; omega,
        daysInMonth_pos (d.year + 1) 1 (by omega) (by omega)⟩

/-- Subtracting zero years is the identity on valid dates. -/
theorem subYears_zero (d : Date) (h : d.valid) : subYears 0 d = d := by
  obtain ⟨hy, hm1, hm2, hd1, hd2⟩ := h
  cases d with
  | mk y m dd =>
    simp only at hd2
    simp [subYears, Date.mk.injEq]
    omega

/-- Year subtraction keeps the date valid (the day clamp lands inside the
target month). -/
theorem subYears_valid (n : Nat) (d : Date) (hv : d.valid) (hn : n + 1 ≤ d.year) :
    (subYears n d).valid := by
  obtain ⟨hy, hm1, hm2, hd1, hd2⟩ := hv
  have hdp := daysInMonth_pos (d.year - n) d.month hm1 hm2
  refine ⟨?_, ?_, ?_, ?_, ?_⟩ <;> simp [subYears] <;> omega

/-- Year subtraction never moves a valid date forward. -/
theorem subYears_le (n : Nat) (d : Date) (hv : d.valid) (hn : n + 1 ≤ d.year) :
    toOrdinal (subYears n d) ≤ toOrdinal d := by
  cases n with
  | zero =>
    rw [subYears_zero d hv]
  | succ k =>
    obtain ⟨hy, hm1, hm2, hd1, hd2⟩ := hv
    have hcross := daysBeforeMonth_cross (d.year - (k + 1)) d.year d.month hm1 hm2
    have hgap := daysBeforeYear_gap (d.year - (k + 1)) (by omega) d.year (by omega)
    simp only [toOrdinal, subYears]
    omega

/-- The day ordinal is strictly monotone with respect to the calendar order
of valid dates. -/
theorem toOrdinal_lt (a b : Date) (ha : a.valid) (hb : b.valid)
    (h : a.year < b.year ∨ (a.year = b.year ∧ a.month < b.month) ∨
         (a.year = b.year ∧ a.month = b.month ∧ a.day < b.day)) :
    toOrdinal a < toOrdinal b := by
  obtain ⟨hay, ham1, ham2, had1, had2⟩ := ha
  obtain ⟨hby, hbm1, hbm2, hbd1, hbd2⟩ := hb
  rcases h with h | ⟨hy, hm⟩ | ⟨hy, hm, hd⟩
  · have hbound := daysBeforeMonth_day_le a.year a.month a.day ham1 ham2 had2
    have hstep := daysBeforeYear_succ a.year hay
    have hmono := daysBeforeYear_mono (a.year + 1) (by omega) b.year (by omega)
    unfold toOrdinal
    generalize hL : (if isLeap a.year then 1 else 0) = L at hbound hstep
    omega
  · have hstep := daysBeforeMonth_succ a.year a.month ham1 (by omega)
    have hmono := daysBeforeMonth_mono a.year (a.month + 1) (by omega) b.month (by omega) hbm2
    have hyy : daysBeforeYear a.year = daysBeforeYear b.year := by rw [hy]
    have hmm : daysBeforeMonth a.year b.month = daysBeforeMonth b.year b.month := by rw [hy]
    unfold toOrdinal
    omega
  · have hyy : daysBeforeYear a.year = daysBeforeYear b.year := by rw [hy]
    have hmm : daysBeforeMonth a.year a.month = daysBeforeMonth b.year b.month := by
      rw [hy, hm]
    unfold toOrdinal
    omega

/-- On valid dates the day ordinal is injective. -/
theorem toOrdinal_inj (a b : Date) (ha : a.valid) (hb : b.valid)
    (h : toOrdinal a = toOrdinal b) : a = b := by
  rcases Nat.lt_trichotomy a.year b.year with h1 | h1 | h1
  · have := toOrdinal_lt a b ha hb (Or.inl h1)
    omega
  · rcases Nat.lt_trichotomy a.month b.month with h2 | h2 | h2
    · have := toOrdinal_lt a b ha hb (Or.inr (Or.inl ⟨h1, h2⟩))
      omega
    · rcases Nat.lt_trichotomy a.day b.day with h3 | h3 | h3
      · have := toOrdinal_lt a b ha hb (Or.inr (Or.inr ⟨h1, h2, h3⟩))
        omega
      · cases a with
        | mk ay am ad =>
          cases b with
          | mk cy cm cd =>
            simp only at h1 h2 h3
            rw [h1, h2, h3]
      · have := toOrdinal_lt b a hb ha (Or.inr (Or.inr ⟨h1.symm, h2.symm, h3⟩))
        omega
    · have := toOrdinal_lt b a hb ha (Or.inr (Or.inl ⟨h1.symm, h2⟩))
      omega
  · have := toOrdinal_lt b a hb ha (Or.inl h1)
    omega

/-- A list whose `getLast?` yields a value contains that value. -/
theorem mem_of_getLast?_eq (l : List Date) (e : Date) (h : l.getLast? = some e) :
    e ∈ l := by
  have h2 : e ∈ l.getLast? := h
  obtain ⟨hne, he⟩ := List.mem_getLast?_eq_getLast h2
  rw [he]
  exact List.getLast_mem hne

/-- `getLast?` ignores the head when the tail is non-empty. -/
theorem getLast?_cons_ne (a : Date) (l : List Date) (h : l ≠ []) :
    (a :: l).getLast? = l.getLast? := by
  cases l with
  | nil => exact absurd rfl h
  | cons b t => exact List.getLast?_cons_cons

/-- `getLast?` variant of the same fact for lists of numbers. -/
theorem getLast?_cons_ne_nat (a : Nat) (l : List Nat) (h : l ≠ []) :
    (a :: l).getLast? = l.getLast? := by
  cases l with
  | nil => exact absurd rfl h
  | cons b t => exact List.getLast?_cons_cons

/-- The last element of a non-empty arithmetic range. -/
theorem range'_getLast : ∀ (n s : Nat), 1 ≤ n →
    (List.range' s n).getLast? = some (s + n - 1) := by
  intro n
  induction n with
  | zero =>
    intro s h
    exact absurd h (by omega)
  | succ k ih =>
    intro s h
    rw [List.range'_succ]
    cases k with
    | zero => simp
    | succ m =>
      have hne : List.range' (s + 1) (m + 1) ≠ [] := by
        intro h0
        have hlen := congrArg List.length h0
        simp [List.length_range'] at hlen
      rw [getLast?_cons_ne_nat s _ hne, ih (s + 1) (by omega)]
      congr 1
      omega

/-- The generator loop stops at once when the current date is past the
end. -/
theorem genLoop_nil (fuel : Nat) (cur endD : Date)
    (h : toOrdinal endD < toOrdinal cur) : genLoop fuel cur endD = [] := by
  cases fuel with
  | zero => rfl
  | succ f =>
    unfold genLoop
    rw [if_neg (by omega)]

/-- The generator loop, given enough fuel and a valid start, visits exactly
the consecutive day ordinals from the start to the end inclusive, through
valid dates. -/
theorem genLoop_spec (endD : Date) :
    ∀ fuel cur, cur.valid → toOrdinal endD + 1 ≤ toOrdinal cur + fuel →
      ((genLoop fuel cur endD).map toOrdinal
          = List.range' (toOrdinal cur) (toOrdinal endD + 1 - toOrdinal cur)) ∧
      (∀ x ∈ genLoop fuel cur endD, x.valid) := by
  intro fuel
  induction fuel with
  | zero =>
    intro cur hv hb
    have h0 : toOrdinal endD + 1 - toOrdinal cur = 0 := by omega
    rw [h0]
    exact ⟨rfl, by intro x hx; simp [genLoop] at hx⟩
  | succ f ih =>
    intro cur hv hb
    by_cases hle : toOrdinal cur ≤ toOrdinal endD
    · have hnext := toOrdinal_nextDay cur hv
      obtain ⟨ih1, ih2⟩ := ih (nextDay cur) (nextDay_valid cur hv) (by omega)
      have hgl : genLoop (f + 1) cur endD = cur :: genLoop f (nextDay cur) endD := by
        unfold genLoop
        rw [if_pos hle]
        congr 1
        cases f with
        | zero => rfl
        | succ m => rfl
      rw [hgl]
      constructor
      · have hn : toOrdinal endD + 1 - toOrdinal cur
            = (toOrdinal endD + 1 - (toOrdinal cur + 1)) + 1 := by omega
        rw [List.map_cons, ih1, hnext, hn, List.range'_succ]
      · intro x hx
        rcases List.mem_cons.mp hx with h1 | h1
        · rw [h1]
          exact hv
        · exact ih2 x h1
    · rw [genLoop_nil (f + 1) cur endD (by omega)]
      have h0 : toOrdinal endD + 1 - toOrdinal cur = 0 := by omega
      rw [h0]
      exact ⟨rfl, by intro x hx; simp at hx⟩

/-- One unfolding of the generator loop while the end is not passed. -/
theorem genLoop_cons (f : Nat) (cur endD : Date) (h : toOrdinal cur ≤ toOrdinal endD) :
    genLoop (f + 1) cur endD = cur :: genLoop f (nextDay cur) endD := by
  unfold genLoop
  rw [if_pos h]
  congr 1
  cases f with
  | zero => rfl
  | succ m => rfl

/-- C5: for every window `N` and valid reference date `now` (with
`N < now.year`, as `datetime` requires), the date frontier holds exactly
one target per calendar day from `now - N years` (the `relativedelta`
result) up to `now` inclusive: the targets' day ordinals are exactly the
consecutive range between the two endpoints, every target is a valid
date, the first target is `now - N years`, the last is `now`, the
sequence is strictly ascending, and `N = 0` yields exactly `[now]`. -/
theorem date_frontier_one_per_day (N : Nat) (now : Date)
    (hv : now.valid) (hy : N + 1 ≤ now.year) :
    ((generateDates N now).map toOrdinal
        = List.range' (toOrdinal (subYears N now))
            (toOrdinal now + 1 - toOrdinal (subYears N now)))
    ∧ (∀ d ∈ generateDates N now, d.valid)
    ∧ (generateDates N now).head? = some (subYears N now)
    ∧ (generateDates N now).getLast? = some now
    ∧ (generateDates N now).Pairwise (fun a b => toOrdinal a < toOrdinal b)
    ∧ (N = 0 → generateDates N now = [now]) := by
  have hvS := subYears_valid N now hv hy
  have hle := subYears_le N now hv hy
  obtain ⟨h1, h2⟩ := genLoop_spec now (toOrdinal now + 1) (subYears N now) hvS (by omega)
  have hgen : generateDates N now = genLoop (toOrdinal now + 1) (subYears N now) now := rfl
  rw [hgen]
  refine ⟨h1, h2, ?_, ?_, ?_, ?_⟩
  · rw [genLoop_cons (toOrdinal now) (subYears N now) now hle]
    rfl
  · have hm : (genLoop (toOrdinal now + 1) (subYears N now) now).getLast?.map toOrdinal
        = some (toOrdinal now) := by
      rw [← List.getLast?_map toOrdinal (genLoop (toOrdinal now + 1) (subYears N now) now),
        h1,
        range'_getLast (toOrdinal now + 1 - toOrdinal (subYears N now))
          (toOrdinal (subYears N now)) (by omega)]
      congr 1
      omega
    obtain ⟨e, he1, he2⟩ := Option.map_eq_some'.mp hm
    have hev : e.valid := h2 e (mem_of_getLast?_eq _ e he1)
    have hen : e = now := toOrdinal_inj e now hev hv (by rw [he2])
    rw [hen] at he1
    exact he1
  · have hp := List.pairwise_lt_range' (toOrdinal (subYears N now))
      (toOrdinal now + 1 - toOrdinal (subYears N now))
    rw [← h1] at hp
    exact List.pairwise_map.mp hp
  · intro h0
    subst h0
    have hz : subYears 0 now = now := subYears_zero now hv
    rw [hz, genLoop_cons (toOrdinal now) now now (le_refl _),
      genLoop_nil (toOrdinal now) (nextDay now) now
        (by have hx := toOrdinal_nextDay now hv; omega)]

/-- Witness for C5 at a leap-day reference date with a zero-year window:
exactly one target, dated `now`. -/
theorem date_frontier_one_per_day_witness :
    generateDates 0 ⟨2024, 2, 29⟩ = [⟨2024, 2, 29⟩] :=
  (date_frontier_one_per_day 0 ⟨2024, 2, 29⟩ (by decide) (by decide)).2.2.2.2.2 rfl
